import Mathlib

/-!
# Equihash Node.js addon (`src/lib/khovratovich/addon.cc`)

A shallow embedding of the binding layer of the Equihash addon: the two
exported methods `Solve` and `Verify`, the two asynchronous workers they
queue, and the byte-order conversions performed at the boundary.

What lies outside `addon.cc` is taken as a parameter:

* the proof-of-work core of `pow.h` (`Seed`, `Equihash::FindProof`,
  `Proof::Test`) is the structure `Core`;
* the conversions of V8 that run script code or parse text are the field
  `Host.convert`;
* the byte order of the machine is the field `Host.order`.

Memory is modelled as a list of bytes; a `uint32_t` stored in memory occupies
four consecutive bytes whose order is given by `Host.order`.
-/

namespace Equihash

/-! ## Bytes, words and byte order -/

/-- One byte of a node `Buffer`. -/
abbrev Byte := Fin 256

/-- Byte order of the machine the addon runs on. -/
inductive ByteOrder
  | little
  | big
  deriving DecidableEq, Repr

/-- The byte with value `x mod 256`. -/
def byteOf (x : Nat) : Byte := ⟨x % 256, Nat.mod_lt x (by decide)⟩

/-- Memory image of the `uint32_t` value `w` on a machine of byte order `e`. -/
def storeWord (e : ByteOrder) (w : Nat) : List Byte :=
  match e with
  | .little => [byteOf w, byteOf (w / 2 ^ 8), byteOf (w / 2 ^ 16), byteOf (w / 2 ^ 24)]
  | .big => [byteOf (w / 2 ^ 24), byteOf (w / 2 ^ 16), byteOf (w / 2 ^ 8), byteOf w]

/-- Memory image of a `std::vector<uint32_t>`: its words stored one after another. -/
def storeWords (e : ByteOrder) (ws : List Nat) : List Byte :=
  (ws.map (storeWord e)).flatten

/-- The `uint32_t` read by `((unsigned*)mem)[i]` on a machine of byte order `e`:
bytes `4i .. 4i+3` of `mem`. -/
def loadWord (e : ByteOrder) (mem : List Byte) (i : Nat) : Nat :=
  let b0 := (mem.getD (4 * i) 0).val
  let b1 := (mem.getD (4 * i + 1) 0).val
  let b2 := (mem.getD (4 * i + 2) 0).val
  let b3 := (mem.getD (4 * i + 3) 0).val
  match e with
  | .little => b0 + b1 * 2 ^ 8 + b2 * 2 ^ 16 + b3 * 2 ^ 24
  | .big => b0 * 2 ^ 24 + b1 * 2 ^ 16 + b2 * 2 ^ 8 + b3

/-- Reversal of the four bytes of a 32-bit word. -/
def bswap32 (w : Nat) : Nat :=
  (w % 256) * 2 ^ 24 + (w / 2 ^ 8 % 256) * 2 ^ 16 + (w / 2 ^ 16 % 256) * 2 ^ 8 + w / 2 ^ 24 % 256

/-- The libc conversion `htonl`: host order to network (big-endian) order. -/
def htonl (e : ByteOrder) (w : Nat) : Nat :=
  match e with
  | .little => bswap32 w
  | .big => w % 2 ^ 32

/-- The libc conversion `ntohl`: network (big-endian) order to host order. -/
def ntohl (e : ByteOrder) (w : Nat) : Nat :=
  match e with
  | .little => bswap32 w
  | .big => w % 2 ^ 32

/-! ## Script values -/

/-- The script values that reach the addon.  Numbers are the integer-valued
ones; functions and buffers carry no own properties. -/
inductive JSValue
  | undefined
  | null
  | boolean (b : Bool)
  | number (v : Int)
  | string (s : String)
  | buffer (bytes : List Byte)
  | function (id : Nat)
  | object (props : List (String × JSValue))

/-- The check `v->IsObject()`: functions and buffers are objects too. -/
def JSValue.IsObject : JSValue → Bool
  | .object _ => true
  | .function _ => true
  | .buffer _ => true
  | _ => false

/-- The check `v->IsFunction()`. -/
def JSValue.IsFunction : JSValue → Bool
  | .function _ => true
  | _ => false

/-- First value bound to `key` in a property list. -/
def lookupProp (key : String) : List (String × JSValue) → JSValue
  | [] => .undefined
  | (name, v) :: rest => if name = key then v else lookupProp key rest

/-- Property read `object->Get(key)`; an absent property reads as `undefined`. -/
def JSValue.Get (o : JSValue) (key : String) : JSValue :=
  match o with
  | .object props => lookupProp key props
  | _ => .undefined

/-- Property write `obj->Set(key, v)` on a plain object. -/
def JSValue.Set (o : JSValue) (key : String) (v : JSValue) : JSValue :=
  match o with
  | .object props => .object ((props.filter fun p => p.1 ≠ key) ++ [(key, v)])
  | other => other

/-- The surroundings of the addon that `addon.cc` does not fix. -/
structure Host where
  /-- Byte order of the machine. -/
  order : ByteOrder
  /-- Numeric conversion of strings, buffers, functions and objects, which
  parses text or runs script code; `none` when that conversion throws. -/
  convert : JSValue → Option Nat

/-- The conversion `Nan::To<uint32_t>(v)`; `none` is the empty `Maybe`. -/
def ToUint32 (h : Host) : JSValue → Option Nat
  | .undefined => some 0
  | .null => some 0
  | .boolean b => some (if b then 1 else 0)
  | .number v => some (v % 2 ^ 32).toNat
  | v => (h.convert v).map fun x => x % 2 ^ 32

/-- The contents `node::Buffer::Data(v)` of a buffer, `node::Buffer::Length(v)`
bytes long; both calls require `v` to be a buffer. -/
def BufferData : JSValue → Option (List Byte)
  | .buffer bytes => some bytes
  | _ => none

/-- The value `Nan::New(x)` of an unsigned `x`. -/
def NewUnsigned (x : Nat) : JSValue := .number ((x % 2 ^ 32 : Nat) : Int)

/-! ## The proof-of-work core (`pow.h`) -/

/-- The argument list of the core's `Proof(n, k, seed, nonce, inputs)`. -/
structure Proof (σ : Type) where
  n : Nat
  k : Nat
  seed : σ
  nonce : Nat
  inputs : List Nat

/-- The core of `pow.h`, a parameter of the development.  `σ` is its type
`Seed`. -/
structure Core (σ : Type) where
  /-- The constructor `Seed(ptr, length)`, applied to the `length` words at `ptr`. -/
  mkSeed : List Nat → σ
  /-- The search `Equihash(n, k, seed).FindProof()`. -/
  FindProof : Nat → Nat → σ → Proof σ
  /-- The check `proof.Test()`. -/
  Test : Proof σ → Bool

/-- The `length` words `ptr[0], ..., ptr[length-1]` seen through `(unsigned*)` at
the start of `mem`. -/
def readWords (e : ByteOrder) (mem : List Byte) (length : Nat) : List Nat :=
  (List.range length).map (loadWord e mem)

/-! ## Workers -/

/-- One invocation `callback->Call(argc, argv)`. -/
structure CallbackCall where
  callee : JSValue
  argv : List JSValue

/-- State of an `EquihashSolveWorker`.  The core's `Nonce` is passed to
`Nan::New` and read back by `To<uint32_t>`; it is taken to be a 32-bit unsigned
word, as `Input` is. -/
structure EquihashSolveWorker (σ : Type) where
  callback : JSValue
  n : Nat
  k : Nat
  nonce : Nat
  seed : σ
  solution : List Nat

/-- The constructor `EquihashSolveWorker(n, k, seed, callback)`; `nonce` and
`solution` are set by `Execute`. -/
def EquihashSolveWorker.new {σ : Type} (n k : Nat) (seed : σ) (callback : JSValue) :
    EquihashSolveWorker σ :=
  ⟨callback, n, k, 0, seed, []⟩

/-- The method `EquihashSolveWorker::Execute`. -/
def EquihashSolveWorker.Execute {σ : Type} (core : Core σ) (w : EquihashSolveWorker σ) :
    EquihashSolveWorker σ :=
  let p := core.FindProof w.n w.k w.seed
  ⟨w.callback, w.n, w.k, p.nonce, w.seed, p.inputs⟩

/-- The method `EquihashSolveWorker::HandleOKCallback`. -/
def EquihashSolveWorker.HandleOKCallback {σ : Type} (h : Host) (w : EquihashSolveWorker σ) :
    CallbackCall :=
  let obj := JSValue.object []
  let beInputs := w.solution.map (htonl h.order)
  let proofValue := JSValue.buffer ((storeWords h.order beInputs).take (beInputs.length * 4))
  let obj := obj.Set "n" (NewUnsigned w.n)
  let obj := obj.Set "k" (NewUnsigned w.k)
  let obj := obj.Set "nonce" (NewUnsigned w.nonce)
  let obj := obj.Set "value" proofValue
  ⟨w.callback, [.null, obj]⟩

/-- State of an `EquihashVerifyWorker`. -/
structure EquihashVerifyWorker (σ : Type) where
  callback : JSValue
  proof : Proof σ
  verified : Bool

/-- The constructor `EquihashVerifyWorker(proof, callback)`; `verified` is set
by `Execute`. -/
def EquihashVerifyWorker.new {σ : Type} (proof : Proof σ) (callback : JSValue) :
    EquihashVerifyWorker σ :=
  ⟨callback, proof, false⟩

/-- The method `EquihashVerifyWorker::Execute`. -/
def EquihashVerifyWorker.Execute {σ : Type} (core : Core σ) (w : EquihashVerifyWorker σ) :
    EquihashVerifyWorker σ :=
  ⟨w.callback, w.proof, core.Test w.proof⟩

/-- The method `EquihashVerifyWorker::HandleOKCallback`. -/
def EquihashVerifyWorker.HandleOKCallback {σ : Type} (w : EquihashVerifyWorker σ) :
    CallbackCall :=
  ⟨w.callback, [.null, .boolean w.verified]⟩

/-! ## The exported methods -/

/-- The two messages passed to `Nan::ThrowTypeError`. -/
inductive TypeError
  | optionsMustBeObject
  | callbackMustBeFunction
  deriving DecidableEq, Repr

/-- What a call of an exported method does before it returns. -/
inductive Outcome (ω : Type)
  /-- The statements `Nan::ThrowTypeError(msg); return;`. -/
  | threw (msg : TypeError)
  /-- The statement `AsyncQueueWorker(w)`. -/
  | queued (w : ω)
  /-- A library call is made outside its domain: `FromJust` on an empty `Maybe`,
  or `node::Buffer::Length` and `node::Buffer::Data` on a value that is not a
  buffer.  What follows is not determined by `addon.cc`; neither of the two type
  errors above is thrown. -/
  | unspecified

/-- The `i`-th argument `info[i]`; `undefined` beyond the arguments given. -/
def arg (info : List JSValue) (i : Nat) : JSValue := info.getD i .undefined

/-- The method `Solve`. -/
def Solve {σ : Type} (h : Host) (core : Core σ) (info : List JSValue) :
    Outcome (EquihashSolveWorker σ) :=
  if !(arg info 0).IsObject then .threw .optionsMustBeObject
  else if !(arg info 1).IsFunction then .threw .callbackMustBeFunction
  else
    let callback := arg info 1
    let object := arg info 0
    let nValue := object.Get "n"
    let kValue := object.Get "k"
    let seedValue := object.Get "seed"
    match ToUint32 h nValue, ToUint32 h kValue, BufferData seedValue with
    | some n, some k, some seedBuffer =>
      let bufferLength := seedBuffer.length / 4
      let seed := core.mkSeed (readWords h.order seedBuffer bufferLength)
      .queued (EquihashSolveWorker.new n k seed callback)
    | _, _, _ => .unspecified

/-- The method `Verify`. -/
def Verify {σ : Type} (h : Host) (core : Core σ) (info : List JSValue) :
    Outcome (EquihashVerifyWorker σ) :=
  if !(arg info 0).IsObject then .threw .optionsMustBeObject
  else
    let callback := arg info 1
    let object := arg info 0
    let nValue := object.Get "n"
    let kValue := object.Get "k"
    let nonceValue := object.Get "nonce"
    let seedValue := object.Get "seed"
    let inputValue := object.Get "value"
    match ToUint32 h nValue, ToUint32 h kValue, ToUint32 h nonceValue,
        BufferData seedValue, BufferData inputValue with
    | some n, some k, some nonce, some seedBuffer, some inputBuffer =>
      let seedBufferLength := seedBuffer.length / 4
      let inputBufferLength := inputBuffer.length / 4
      let seed := core.mkSeed (readWords h.order seedBuffer seedBufferLength)
      let inputs := (readWords h.order inputBuffer inputBufferLength).map (ntohl h.order)
      let p : Proof σ := ⟨n, k, seed, nonce, inputs⟩
      .queued (EquihashVerifyWorker.new p callback)
    | _, _, _, _, _ => .unspecified

/-- Completion of a queued solve worker: `Execute` on the worker thread, then,
as no error message is ever set, `HandleOKCallback` on the event loop. -/
def EquihashSolveWorker.complete {σ : Type} (h : Host) (core : Core σ)
    (w : EquihashSolveWorker σ) : CallbackCall :=
  (w.Execute core).HandleOKCallback h

/-- Completion of a queued verify worker: `Execute`, then `HandleOKCallback`. -/
def EquihashVerifyWorker.complete {σ : Type} (core : Core σ)
    (w : EquihashVerifyWorker σ) : CallbackCall :=
  (w.Execute core).HandleOKCallback

/-- The callback invocation a call of `Solve` leads to, if it queues a worker. -/
def solveDelivery {σ : Type} (h : Host) (core : Core σ) (info : List JSValue) :
    Option CallbackCall :=
  match Solve h core info with
  | .queued w => some (w.complete h core)
  | _ => none

/-- The callback invocation a call of `Verify` leads to, if it queues a worker. -/
def verifyDelivery {σ : Type} (h : Host) (core : Core σ) (info : List JSValue) :
    Option CallbackCall :=
  match Verify h core info with
  | .queued w => some (w.complete core)
  | _ => none

/-! ## A concrete host and a concrete core, on which statements are evaluated -/

/-- A little-endian host whose script conversions always throw. -/
def demoHost : Host := ⟨.little, fun _ => none⟩

/-- A big-endian host whose script conversions always throw. -/
def demoHostBE : Host := ⟨.big, fun _ => none⟩

/-- A stand-in core: seeds are word lists, the search returns a fixed nonce and
two fixed indices together with the parameters it was given, and the check
accepts exactly the proofs with `2 ^ k` indices. -/
def demoCore : Core (List Nat) :=
  ⟨id, fun n k s => ⟨n, k, s, 7, [1, 16909060]⟩, fun p => decide (p.inputs.length = 2 ^ p.k)⟩

/-- A stand-in core whose search is exhausted: it returns a proof without indices. -/
def exhaustedCore : Core (List Nat) :=
  ⟨id, fun n k s => ⟨n, k, s, 1048575, []⟩, fun p => decide (p.inputs.length = 2 ^ p.k)⟩

/-- A seed buffer of nine bytes: two words and one trailing byte. -/
def demoSeed : List Byte := [1, 0, 0, 0, 2, 0, 0, 0, 9]

/-- A seed buffer of ten bytes with the same eight leading bytes as `demoSeed`. -/
def demoSeedLonger : List Byte := [1, 0, 0, 0, 2, 0, 0, 0, 7, 7]

/-- Arguments of a `Solve` call with `n = 96`, `k = 5`. -/
def demoSolveInfo : List JSValue :=
  [.object [("n", .number 96), ("k", .number 5), ("seed", .buffer demoSeed)], .function 0]

/-- The worker queued by the call `demoSolveInfo` on `demoHost`. -/
def demoSolveWorker : EquihashSolveWorker (List Nat) :=
  EquihashSolveWorker.new 96 5 [1, 2] (.function 0)

/-- A `value` buffer of two indices, `1` and `16909060`. -/
def demoValue : List Byte := [0, 0, 0, 1, 1, 2, 3, 4]

/-- Properties of the options of a `Verify` call with `n = 96`, `k = 5`. -/
def demoVerifyProps : List (String × JSValue) :=
  [("n", .number 96), ("k", .number 5), ("nonce", .number 7), ("seed", .buffer demoSeed),
    ("value", .buffer demoValue)]

/-- Arguments of a `Verify` call with the options `demoVerifyProps`. -/
def demoVerifyInfo : List JSValue := [.object demoVerifyProps, .function 1]

/-- The worker queued by the call `demoVerifyInfo` on `demoHost`. -/
def demoVerifyWorker : EquihashVerifyWorker (List Nat) :=
  ⟨.function 1, ⟨96, 5, [1, 2], 7, [1, 16909060]⟩, false⟩

/-- Arguments of a `Verify` call for `n = 96`, `k = 5` with a seed of 32 zero bytes
and a `value` of 31 indices, one fewer than `2 ^ 5`. -/
def truncatedVerifyInfo : List JSValue :=
  [.object [("n", .number 96), ("k", .number 5), ("nonce", .number 0),
    ("seed", .buffer (List.replicate 32 0)), ("value", .buffer (List.replicate 124 0))],
    .function 1]

/-- Arguments of a `Solve` call with `n = 96`, `k = 1`, for which `demoCore` finds a
proof that its check accepts. -/
def roundtripSolveInfo : List JSValue :=
  [.object [("n", .number 96), ("k", .number 1), ("seed", .buffer demoSeed)], .function 0]

/-- Options of a `Verify` call carrying what `Solve` delivers for
`roundtripSolveInfo`, and the same seed buffer. -/
def roundtripVerifyOptions : JSValue :=
  .object [("seed", .buffer demoSeed), ("n", .number 96), ("k", .number 1),
    ("nonce", .number 7), ("value", .buffer demoValue)]

/-- Arguments of a `Solve` call that differs from `demoSolveInfo` only in its seed
buffer, `demoSeedLonger`. -/
def demoSolveInfoLonger : List JSValue :=
  [.object [("n", .number 96), ("k", .number 5), ("seed", .buffer demoSeedLonger)],
    .function 0]

/-- Arguments of a `Verify` call that differs from `demoVerifyInfo` only in its
seed buffer, `demoSeedLonger`. -/
def demoVerifyInfoLonger : List JSValue :=
  [.object [("n", .number 96), ("k", .number 5), ("nonce", .number 7),
    ("seed", .buffer demoSeedLonger), ("value", .buffer demoValue)], .function 1]

/-- Arguments of a `Solve` call whose seed buffer has three bytes. -/
def shortSeedSolveInfo : List JSValue :=
  [.object [("n", .number 96), ("k", .number 5), ("seed", .buffer [9, 9, 9])], .function 0]

/-- Arguments of a `Verify` call whose seed buffer has three bytes. -/
def shortSeedVerifyInfo : List JSValue :=
  [.object [("n", .number 96), ("k", .number 5), ("nonce", .number 7),
    ("seed", .buffer [9, 9, 9]), ("value", .buffer demoValue)], .function 1]

/-- Arguments of a `Solve` call whose options are an object without a `seed`
property, with a function as callback. -/
def noSeedSolveInfo : List JSValue :=
  [.object [("n", .number 96), ("k", .number 5)], .function 0]

/-- Arguments of a `Solve` call with `n = 0` and `k = 0`. -/
def zeroSolveInfo : List JSValue :=
  [.object [("n", .number 0), ("k", .number 0), ("seed", .buffer demoSeed)], .function 0]

/-- Arguments of a `Verify` call with `n = 0` and `k = 0`. -/
def zeroVerifyInfo : List JSValue :=
  [.object [("n", .number 0), ("k", .number 0), ("nonce", .number 7),
    ("seed", .buffer demoSeed), ("value", .buffer demoValue)], .function 1]

/-! ## Bytes and words: auxiliary facts -/

theorem byteOf_val (x : Nat) : (byteOf x).val = x % 256 := rfl

theorem byteOf_congr {x y : Nat} (hxy : x % 256 = y % 256) : byteOf x = byteOf y :=
  Fin.ext hxy

theorem digits_of_sum (a b c d : Nat) (ha : a < 256) (hb : b < 256) (hc : c < 256)
    (hd : d < 256) :
    (a * 16777216 + b * 65536 + c * 256 + d) % 256 = d ∧
    (a * 16777216 + b * 65536 + c * 256 + d) / 256 % 256 = c ∧
    (a * 16777216 + b * 65536 + c * 256 + d) / 65536 % 256 = b ∧
    (a * 16777216 + b * 65536 + c * 256 + d) / 16777216 % 256 = a := by
  refine ⟨by omega, by omega, by omega, by omega⟩

theorem bswap32_digits (w : Nat) :
    bswap32 w % 256 = w / 16777216 % 256 ∧
    bswap32 w / 256 % 256 = w / 65536 % 256 ∧
    bswap32 w / 65536 % 256 = w / 256 % 256 ∧
    bswap32 w / 16777216 % 256 = w % 256 := by
  have h := digits_of_sum (w % 256) (w / 256 % 256) (w / 65536 % 256) (w / 16777216 % 256)
    (Nat.mod_lt _ (by decide)) (Nat.mod_lt _ (by decide)) (Nat.mod_lt _ (by decide))
    (Nat.mod_lt _ (by decide))
  simpa [bswap32] using h

theorem storeWord_htonl (e : ByteOrder) (w : Nat) :
    storeWord e (htonl e w) =
      [byteOf (w / 2 ^ 24), byteOf (w / 2 ^ 16), byteOf (w / 2 ^ 8), byteOf w] := by
  obtain ⟨h0, h1, h2, h3⟩ := bswap32_digits w
  cases e
  · have e0 : byteOf (bswap32 w) = byteOf (w / 2 ^ 24) := byteOf_congr (by omega)
    have e1 : byteOf (bswap32 w / 2 ^ 8) = byteOf (w / 2 ^ 16) := byteOf_congr (by omega)
    have e2 : byteOf (bswap32 w / 2 ^ 16) = byteOf (w / 2 ^ 8) := byteOf_congr (by omega)
    have e3 : byteOf (bswap32 w / 2 ^ 24) = byteOf w := byteOf_congr (by omega)
    simp only [storeWord, htonl, e0, e1, e2, e3]
  · have e0 : byteOf (w % 2 ^ 32 / 2 ^ 24) = byteOf (w / 2 ^ 24) := byteOf_congr (by omega)
    have e1 : byteOf (w % 2 ^ 32 / 2 ^ 16) = byteOf (w / 2 ^ 16) := byteOf_congr (by omega)
    have e2 : byteOf (w % 2 ^ 32 / 2 ^ 8) = byteOf (w / 2 ^ 8) := byteOf_congr (by omega)
    have e3 : byteOf (w % 2 ^ 32) = byteOf w := byteOf_congr (by omega)
    simp only [storeWord, htonl, e0, e1, e2, e3]

theorem ntohl_little_bytes (a b c d : Nat) (ha : a < 256) (hb : b < 256) (hc : c < 256)
    (hd : d < 256) :
    ntohl .little (a + b * 2 ^ 8 + c * 2 ^ 16 + d * 2 ^ 24) =
      a * 2 ^ 24 + b * 2 ^ 16 + c * 2 ^ 8 + d := by
  have hs : a + b * 2 ^ 8 + c * 2 ^ 16 + d * 2 ^ 24 =
      d * 16777216 + c * 65536 + b * 256 + a := by omega
  obtain ⟨g0, g1, g2, g3⟩ := digits_of_sum d c b a hd hc hb ha
  rw [hs]
  simp only [ntohl, bswap32, Nat.reducePow]
  rw [g0, g1, g2, g3]

theorem ntohl_big_bytes (a b c d : Nat) (ha : a < 256) (hb : b < 256) (hc : c < 256)
    (hd : d < 256) :
    ntohl .big (a * 2 ^ 24 + b * 2 ^ 16 + c * 2 ^ 8 + d) =
      a * 2 ^ 24 + b * 2 ^ 16 + c * 2 ^ 8 + d := by
  simp only [ntohl]
  omega

theorem ntohl_loadWord (e : ByteOrder) (mem : List Byte) (i : Nat) :
    ntohl e (loadWord e mem i) =
      (mem.getD (4 * i) 0).val * 2 ^ 24 + (mem.getD (4 * i + 1) 0).val * 2 ^ 16 +
        (mem.getD (4 * i + 2) 0).val * 2 ^ 8 + (mem.getD (4 * i + 3) 0).val := by
  cases e
  · exact ntohl_little_bytes _ _ _ _ (Fin.isLt _) (Fin.isLt _) (Fin.isLt _) (Fin.isLt _)
  · exact ntohl_big_bytes _ _ _ _ (Fin.isLt _) (Fin.isLt _) (Fin.isLt _) (Fin.isLt _)

theorem readWords_length (e : ByteOrder) (mem : List Byte) (len : Nat) :
    (readWords e mem len).length = len := by
  simp [readWords]

theorem storeWords_cons (e : ByteOrder) (w : Nat) (ws : List Nat) :
    storeWords e (w :: ws) = storeWord e w ++ storeWords e ws := by
  simp [storeWords]

theorem storeWord_length (e : ByteOrder) (w : Nat) : (storeWord e w).length = 4 := by
  cases e <;> rfl

theorem storeWords_length (e : ByteOrder) (ws : List Nat) :
    (storeWords e ws).length = 4 * ws.length := by
  induction ws with
  | nil => rfl
  | cons w ws ih => rw [storeWords_cons, List.length_append, storeWord_length, ih, List.length_cons]; omega

theorem storeWords_getD (e : ByteOrder) (ws : List Nat) (i j : Nat) (hj : j < 4) :
    (storeWords e ws).getD (4 * i + j) 0 = if i < ws.length then (storeWord e (ws.getD i 0)).getD j 0 else 0 := by
  induction ws generalizing i with
  | nil => simp [storeWords]
  | cons w ws ih =>
    rw [storeWords_cons]
    cases i with
    | zero =>
      simp only [Nat.mul_zero, Nat.zero_add, List.length_cons, Nat.zero_lt_succ, if_true]
      rw [List.getD_append _ _ _ _ (by rw [storeWord_length]; exact hj)]
      simp
    | succ i =>
      rw [List.getD_append_right _ _ _ _ (by rw [storeWord_length]; omega)]
      rw [storeWord_length]
      have : 4 * (i + 1) + j - 4 = 4 * i + j := by omega
      rw [this, ih]
      simp

theorem loadWord_congr (e : ByteOrder) (mem₁ mem₂ : List Byte) (i : Nat)
    (hmem : ∀ j, j < 4 → mem₁.getD (4 * i + j) 0 = mem₂.getD (4 * i + j) 0) :
    loadWord e mem₁ i = loadWord e mem₂ i := by
  have h0 : mem₁.getD (4 * i) 0 = mem₂.getD (4 * i) 0 := hmem 0 (by decide)
  have h1 := hmem 1 (by decide)
  have h2 := hmem 2 (by decide)
  have h3 := hmem 3 (by decide)
  unfold loadWord
  rw [h0, h1, h2, h3]

theorem readWords_congr (e : ByteOrder) (mem₁ mem₂ : List Byte) (len : Nat)
    (hmem : ∀ p, p < 4 * len → mem₁.getD p 0 = mem₂.getD p 0) :
    readWords e mem₁ len = readWords e mem₂ len := by
  unfold readWords
  apply List.map_congr_left
  intro i hi
  have hlt : i < len := List.mem_range.mp hi
  exact loadWord_congr e mem₁ mem₂ i (fun j hj => hmem _ (by omega))

theorem getD_take_of_lt (mem : List Byte) (m p : Nat) (hp : p < m) :
    (mem.take m).getD p 0 = mem.getD p 0 := by
  rw [List.getD_eq_getElem?_getD, List.getD_eq_getElem?_getD, List.getElem?_take_of_lt hp]

theorem readWords_take (e : ByteOrder) (mem : List Byte) (len : Nat) :
    readWords e (mem.take (4 * len)) len = readWords e mem len :=
  readWords_congr e _ _ len (fun p hp => getD_take_of_lt mem (4 * len) p hp)

theorem readWords_of_take_eq (e : ByteOrder) (mem₁ mem₂ : List Byte) (len : Nat)
    (htake : mem₁.take (4 * len) = mem₂.take (4 * len)) :
    readWords e mem₁ len = readWords e mem₂ len := by
  rw [← readWords_take e mem₁ len, ← readWords_take e mem₂ len, htake]

theorem readWords_append (e : ByteOrder) (b t : List Byte) (len : Nat)
    (hlen : 4 * len ≤ b.length) :
    readWords e (b ++ t) len = readWords e b len :=
  readWords_congr e _ _ len (fun p hp => List.getD_append b t 0 p (by omega))

theorem readWords_getD (e : ByteOrder) (mem : List Byte) (len i : Nat) (hi : i < len) :
    (readWords e mem len).getD i 0 = loadWord e mem i := by
  unfold readWords
  rw [List.getD_eq_getElem?_getD, List.getElem?_map, List.getElem?_range hi]
  rfl

/-- Words recovered by `Verify` from a buffer: entry `i` is the big-endian value
of bytes `4i .. 4i+3`, whatever the byte order of the machine. -/
theorem decoded_getD (e : ByteOrder) (b : List Byte) (i : Nat) (hi : i < b.length / 4) :
    ((readWords e b (b.length / 4)).map (ntohl e)).getD i 0 =
      (b.getD (4 * i) 0).val * 2 ^ 24 + (b.getD (4 * i + 1) 0).val * 2 ^ 16 +
        (b.getD (4 * i + 2) 0).val * 2 ^ 8 + (b.getD (4 * i + 3) 0).val := by
  rw [List.getD_eq_getElem?_getD, List.getElem?_map, ← ntohl_loadWord e b i]
  have h := readWords_getD e b (b.length / 4) i hi
  rw [List.getD_eq_getElem?_getD] at h
  have hsome : (readWords e b (b.length / 4))[i]? = some (loadWord e b i) := by
    have hl : i < (readWords e b (b.length / 4)).length := by
      rw [readWords_length]; exact hi
    rw [List.getElem?_eq_getElem hl]
    rw [List.getElem?_eq_getElem hl] at h
    simpa using h
  rw [hsome]
  rfl

/-- Bytes written by `Solve` for the word list `s`. -/
theorem encoded_eq (e : ByteOrder) (s : List Nat) :
    (storeWords e (s.map (htonl e))).take ((s.map (htonl e)).length * 4) =
      (s.map fun w => [byteOf (w / 2 ^ 24), byteOf (w / 2 ^ 16), byteOf (w / 2 ^ 8),
        byteOf w]).flatten := by
  rw [List.take_of_length_le (by rw [storeWords_length]; omega)]
  unfold storeWords
  rw [List.map_map]
  congr 1
  apply List.map_congr_left
  intro w _
  exact storeWord_htonl e w

theorem bigEndian_getD (s : List Nat) (i j : Nat) (hj : j < 4) :
    ((s.map fun w => [byteOf (w / 2 ^ 24), byteOf (w / 2 ^ 16), byteOf (w / 2 ^ 8),
        byteOf w]).flatten).getD (4 * i + j) 0 =
      if i < s.length then
        ([byteOf (s.getD i 0 / 2 ^ 24), byteOf (s.getD i 0 / 2 ^ 16),
          byteOf (s.getD i 0 / 2 ^ 8), byteOf (s.getD i 0)] : List Byte).getD j 0
      else 0 := by
  have h := storeWords_getD .big s i j hj
  unfold storeWords at h
  exact h

theorem bigEndian_length (s : List Nat) :
    ((s.map fun w => [byteOf (w / 2 ^ 24), byteOf (w / 2 ^ 16), byteOf (w / 2 ^ 8),
        byteOf w]).flatten).length = 4 * s.length :=
  storeWords_length .big s

/-- Decoding what was encoded returns the words, reduced to 32 bits. -/
theorem decode_encode (e : ByteOrder) (s : List Nat) :
    (readWords e ((storeWords e (s.map (htonl e))).take ((s.map (htonl e)).length * 4))
        (((storeWords e (s.map (htonl e))).take ((s.map (htonl e)).length * 4)).length / 4)).map
      (ntohl e) = s.map fun w => w % 2 ^ 32 := by
  rw [encoded_eq]
  have hlen := bigEndian_length s
  have hq : ((s.map fun w => [byteOf (w / 2 ^ 24), byteOf (w / 2 ^ 16), byteOf (w / 2 ^ 8),
        byteOf w]).flatten).length / 4 = s.length := by omega
  apply List.ext_getElem
  · rw [List.length_map, readWords_length, hq, List.length_map]
  · intro i h₁ h₂
    have hi : i < s.length := by simpa using h₂
    have hd := decoded_getD e _ i (by rw [hq]; exact hi)
    rw [List.getD_eq_getElem _ _ h₁] at hd
    rw [hd]
    have b0 := bigEndian_getD s i 0 (by decide)
    have b1 := bigEndian_getD s i 1 (by decide)
    have b2 := bigEndian_getD s i 2 (by decide)
    have b3 := bigEndian_getD s i 3 (by decide)
    rw [if_pos hi] at b0 b1 b2 b3
    rw [Nat.add_zero] at b0
    rw [b0, b1, b2, b3]
    rw [List.getElem_map, List.getD_eq_getElem _ _ hi]
    simp only [List.getD_cons_zero, List.getD_cons_succ, byteOf_val]
    omega

/-! ## Property reads and writes -/

theorem lookupProp_set_same (key : String) (v : JSValue) (props : List (String × JSValue)) :
    lookupProp key ((props.filter fun p => p.1 ≠ key) ++ [(key, v)]) = v := by
  induction props with
  | nil => simp [lookupProp]
  | cons p ps ih =>
    obtain ⟨name, x⟩ := p
    by_cases hname : name = key
    · simpa [List.filter, hname] using ih
    · simpa [List.filter, hname, lookupProp] using ih

theorem lookupProp_set_other (key other : String) (v : JSValue)
    (props : List (String × JSValue)) (hne : other ≠ key) :
    lookupProp other ((props.filter fun p => p.1 ≠ key) ++ [(key, v)]) =
      lookupProp other props := by
  have hne2 : ¬ key = other := fun hc => hne hc.symm
  induction props with
  | nil => simp [lookupProp, hne2]
  | cons p ps ih =>
    obtain ⟨name, x⟩ := p
    by_cases hname : name = key
    · subst hname
      simpa [List.filter, lookupProp, hne2] using ih
    · by_cases hother : name = other
      · subst hother
        simp [List.filter, hname, lookupProp]
      · simpa [List.filter, hname, lookupProp, hother] using ih

theorem Get_Set_same (props : List (String × JSValue)) (key : String) (v : JSValue) :
    ((JSValue.object props).Set key v).Get key = v :=
  lookupProp_set_same key v props

theorem Get_Set_other (props : List (String × JSValue)) (key other : String) (v : JSValue)
    (hne : other ≠ key) :
    ((JSValue.object props).Set key v).Get other = (JSValue.object props).Get other :=
  lookupProp_set_other key other v props hne

theorem IsObject_of_Get_buffer (o : JSValue) (key : String) (bytes : List Byte)
    (hget : o.Get key = .buffer bytes) : o.IsObject = true := by
  cases o <;> first | rfl | simp [JSValue.Get] at hget

/-! ## The two methods on a well-formed call -/

theorem Solve_queued {σ : Type} (h : Host) (core : Core σ) (info : List JSValue)
    (n k : Nat) (seedBuffer : List Byte)
    (hfn : (arg info 1).IsFunction = true)
    (hn : ToUint32 h ((arg info 0).Get "n") = some n)
    (hk : ToUint32 h ((arg info 0).Get "k") = some k)
    (hseed : (arg info 0).Get "seed" = .buffer seedBuffer) :
    Solve h core info =
      .queued (EquihashSolveWorker.new n k
        (core.mkSeed (readWords h.order seedBuffer (seedBuffer.length / 4))) (arg info 1)) := by
  have hobj := IsObject_of_Get_buffer _ _ _ hseed
  simp [Solve, hobj, hfn, hn, hk, hseed, BufferData]

theorem Verify_queued {σ : Type} (h : Host) (core : Core σ) (info : List JSValue)
    (n k nonce : Nat) (seedBuffer inputBuffer : List Byte)
    (hn : ToUint32 h ((arg info 0).Get "n") = some n)
    (hk : ToUint32 h ((arg info 0).Get "k") = some k)
    (hnonce : ToUint32 h ((arg info 0).Get "nonce") = some nonce)
    (hseed : (arg info 0).Get "seed" = .buffer seedBuffer)
    (hvalue : (arg info 0).Get "value" = .buffer inputBuffer) :
    Verify h core info =
      .queued (EquihashVerifyWorker.new
        ⟨n, k, core.mkSeed (readWords h.order seedBuffer (seedBuffer.length / 4)), nonce,
          (readWords h.order inputBuffer (inputBuffer.length / 4)).map (ntohl h.order)⟩
        (arg info 1)) := by
  have hobj := IsObject_of_Get_buffer _ _ _ hseed
  simp [Verify, hobj, hn, hk, hnonce, hseed, hvalue, BufferData]

theorem Solve_threw_iff {σ : Type} (h : Host) (core : Core σ) (info : List JSValue) :
    (∃ msg, Solve h core info = .threw msg) ↔
      ((arg info 0).IsObject = false ∨ (arg info 1).IsFunction = false) := by
  unfold Solve
  cases hobj : (arg info 0).IsObject <;> cases hfn : (arg info 1).IsFunction <;> simp
  split <;> simp

theorem ToUint32_NewUnsigned (h : Host) (x : Nat) :
    ToUint32 h (NewUnsigned x) = some (x % 2 ^ 32) := by
  simp only [ToUint32, NewUnsigned]
  congr 1
  omega

theorem ToUint32_lt (h : Host) (v : JSValue) (n : Nat) (hn : ToUint32 h v = some n) :
    n < 2 ^ 32 := by
  cases v with
  | undefined => simp [ToUint32] at hn; omega
  | null => simp [ToUint32] at hn; omega
  | boolean b => cases b <;> simp [ToUint32] at hn <;> omega
  | number v => simp only [ToUint32, Option.some.injEq] at hn; omega
  | string s =>
    simp only [ToUint32, Option.map_eq_some'] at hn
    obtain ⟨x, _, hx⟩ := hn
    omega
  | buffer bs =>
    simp only [ToUint32, Option.map_eq_some'] at hn
    obtain ⟨x, _, hx⟩ := hn
    omega
  | function f =>
    simp only [ToUint32, Option.map_eq_some'] at hn
    obtain ⟨x, _, hx⟩ := hn
    omega
  | object ps =>
    simp only [ToUint32, Option.map_eq_some'] at hn
    obtain ⟨x, _, hx⟩ := hn
    omega

theorem HandleOKCallback_eq {σ : Type} (h : Host) (w : EquihashSolveWorker σ) :
    w.HandleOKCallback h =
      ⟨w.callback, [.null, .object [("n", NewUnsigned w.n), ("k", NewUnsigned w.k),
        ("nonce", NewUnsigned w.nonce),
        ("value", .buffer ((w.solution.map fun x => [byteOf (x / 2 ^ 24), byteOf (x / 2 ^ 16),
          byteOf (x / 2 ^ 8), byteOf x]).flatten))]]⟩ := by
  have henc := encoded_eq h.order w.solution
  simp only [EquihashSolveWorker.HandleOKCallback, JSValue.Set, henc]
  simp [List.filter]

/-! ## The claims -/

/-- C2. The `value` buffer that a solve worker delivers for a solution `s` of
32-bit indices has `4 * |s|` bytes, and bytes `4i`, `4i+1`, `4i+2`, `4i+3` are the
most significant to least significant bytes of `s[i]`, on a host of either byte
order. -/
theorem Solve_value_bigEndian {σ : Type} (h : Host) (core : Core σ)
    (w : EquihashSolveWorker σ)
    (hword : ∀ x ∈ (core.FindProof w.n w.k w.seed).inputs, x < 2 ^ 32) :
    ∃ bytes : List Byte,
      (((w.complete h core).argv.getD 1 .undefined).Get "value" = .buffer bytes) ∧
      bytes.length = 4 * (core.FindProof w.n w.k w.seed).inputs.length ∧
      ∀ i, i < (core.FindProof w.n w.k w.seed).inputs.length →
        (bytes.getD (4 * i) 0).val = (core.FindProof w.n w.k w.seed).inputs.getD i 0 / 2 ^ 24 ∧
        (bytes.getD (4 * i + 1) 0).val =
          (core.FindProof w.n w.k w.seed).inputs.getD i 0 / 2 ^ 16 % 256 ∧
        (bytes.getD (4 * i + 2) 0).val =
          (core.FindProof w.n w.k w.seed).inputs.getD i 0 / 2 ^ 8 % 256 ∧
        (bytes.getD (4 * i + 3) 0).val =
          (core.FindProof w.n w.k w.seed).inputs.getD i 0 % 256 := by
  generalize hs : (core.FindProof w.n w.k w.seed).inputs = s at hword
  refine ⟨(s.map fun x => [byteOf (x / 2 ^ 24), byteOf (x / 2 ^ 16), byteOf (x / 2 ^ 8),
    byteOf x]).flatten, ?_, bigEndian_length s, ?_⟩
  · rw [EquihashSolveWorker.complete, HandleOKCallback_eq]
    simp only [EquihashSolveWorker.Execute, hs]
    rfl
  · intro i hi
    have b0 := bigEndian_getD s i 0 (by decide)
    have b1 := bigEndian_getD s i 1 (by decide)
    have b2 := bigEndian_getD s i 2 (by decide)
    have b3 := bigEndian_getD s i 3 (by decide)
    rw [if_pos hi] at b0 b1 b2 b3
    rw [Nat.add_zero] at b0
    rw [b0, b1, b2, b3]
    have hx : s.getD i 0 < 2 ^ 32 := by
      rw [List.getD_eq_getElem _ _ hi]
      exact hword _ (List.getElem_mem hi)
    generalize s.getD i 0 = x at hx
    refine ⟨?_, ?_, ?_, ?_⟩
    · show x / 2 ^ 24 % 256 = x / 2 ^ 24
      omega
    · show x / 2 ^ 16 % 256 = x / 2 ^ 16 % 256
      rfl
    · show x / 2 ^ 8 % 256 = x / 2 ^ 8 % 256
      rfl
    · show x % 256 = x % 256
      rfl

/-- C3. The index list that `Verify` hands to the core for a `value` buffer `b`
has `|b| / 4` entries, and entry `i` is
`b[4i] * 2^24 + b[4i+1] * 2^16 + b[4i+2] * 2^8 + b[4i+3]`, in buffer order, on a
host of either byte order. -/
theorem Verify_indices_bigEndian {σ : Type} (h : Host) (core : Core σ)
    (info : List JSValue) (n k nonce : Nat) (seedBuffer b : List Byte)
    (hn : ToUint32 h ((arg info 0).Get "n") = some n)
    (hk : ToUint32 h ((arg info 0).Get "k") = some k)
    (hnonce : ToUint32 h ((arg info 0).Get "nonce") = some nonce)
    (hseed : (arg info 0).Get "seed" = .buffer seedBuffer)
    (hvalue : (arg info 0).Get "value" = .buffer b) :
    ∃ vw : EquihashVerifyWorker σ,
      Verify h core info = .queued vw ∧
      vw.proof.inputs.length = b.length / 4 ∧
      ∀ i, i < b.length / 4 →
        vw.proof.inputs.getD i 0 =
          (b.getD (4 * i) 0).val * 2 ^ 24 + (b.getD (4 * i + 1) 0).val * 2 ^ 16 +
            (b.getD (4 * i + 2) 0).val * 2 ^ 8 + (b.getD (4 * i + 3) 0).val := by
  refine ⟨_, Verify_queued h core info n k nonce seedBuffer b hn hk hnonce hseed hvalue, ?_, ?_⟩
  · simp [EquihashVerifyWorker.new, readWords_length]
  · intro i hi
    exact decoded_getD h.order b i hi

/-- C10. `Verify` decodes `|b ++ t| / 4` indices and ignores trailing bytes: for a
buffer `b` whose length is a multiple of 4 and a suffix `t` of 1 to 3 bytes, the
call on `b ++ t` queues the same worker, with the same index list, as the call
on `b`, and so delivers the same result, although `b ++ t` differs from `b`. -/
theorem Verify_ignores_trailing_bytes {σ : Type} (h : Host) (core : Core σ)
    (props : List (String × JSValue)) (cb : JSValue) (n k nonce : Nat)
    (seedBuffer b t : List Byte)
    (hn : ToUint32 h ((JSValue.object props).Get "n") = some n)
    (hk : ToUint32 h ((JSValue.object props).Get "k") = some k)
    (hnonce : ToUint32 h ((JSValue.object props).Get "nonce") = some nonce)
    (hseed : (JSValue.object props).Get "seed" = .buffer seedBuffer)
    (hmul : b.length % 4 = 0) (ht1 : 1 ≤ t.length) (ht3 : t.length ≤ 3) :
    ∃ vw : EquihashVerifyWorker σ,
      Verify h core [(JSValue.object props).Set "value" (.buffer (b ++ t)), cb] = .queued vw ∧
      Verify h core [(JSValue.object props).Set "value" (.buffer b), cb] = .queued vw ∧
      vw.proof.inputs.length = (b ++ t).length / 4 ∧
      vw.proof.inputs = (readWords h.order b (b.length / 4)).map (ntohl h.order) ∧
      verifyDelivery h core [(JSValue.object props).Set "value" (.buffer (b ++ t)), cb] =
        verifyDelivery h core [(JSValue.object props).Set "value" (.buffer b), cb] ∧
      b ++ t ≠ b := by
  have hlen : (b ++ t).length / 4 = b.length / 4 := by
    rw [List.length_append]; omega
  have hread : readWords h.order (b ++ t) ((b ++ t).length / 4) =
      readWords h.order b (b.length / 4) := by
    rw [hlen]
    exact readWords_append h.order b t _ (by omega)
  have hget : ∀ (x : List Byte) (key : String), key ≠ "value" →
      (arg [(JSValue.object props).Set "value" (.buffer x), cb] 0).Get key =
        (JSValue.object props).Get key :=
    fun x key hkey => Get_Set_other props "value" key _ hkey
  have hval : ∀ x : List Byte,
      (arg [(JSValue.object props).Set "value" (.buffer x), cb] 0).Get "value" = .buffer x :=
    fun x => Get_Set_same props "value" _
  have h1 := Verify_queued h core [(JSValue.object props).Set "value" (.buffer (b ++ t)), cb]
    n k nonce seedBuffer (b ++ t)
    (by rw [hget _ _ (by decide)]; exact hn) (by rw [hget _ _ (by decide)]; exact hk)
    (by rw [hget _ _ (by decide)]; exact hnonce) (by rw [hget _ _ (by decide)]; exact hseed)
    (hval _)
  have h2 := Verify_queued h core [(JSValue.object props).Set "value" (.buffer b), cb]
    n k nonce seedBuffer b
    (by rw [hget _ _ (by decide)]; exact hn) (by rw [hget _ _ (by decide)]; exact hk)
    (by rw [hget _ _ (by decide)]; exact hnonce) (by rw [hget _ _ (by decide)]; exact hseed)
    (hval _)
  rw [hread] at h1
  refine ⟨_, h1, h2, ?_, rfl, ?_, ?_⟩
  · simp only [EquihashVerifyWorker.new, List.length_map, readWords_length, hlen]
  · simp only [verifyDelivery, h1, h2]
    rfl
  · intro hc
    have := congrArg List.length hc
    rw [List.length_append] at this
    omega

/-- C9. The seed handed to the core by `Solve` and by `Verify` is built from the
`|s| / 4` words read from the first `4 * (|s| / 4)` bytes of the seed buffer `s`.
For two seed buffers with the same `|s| / 4` that agree on those leading bytes:
two `Solve` calls that give the same `n`, `k` and callback queue the same worker
and lead to the same delivery, and two `Verify` calls that give the same `n`,
`k`, nonce, `value` and callback queue the same worker and lead to the same
delivery.  A seed buffer of fewer than 4 bytes is passed as the seed of no
words. -/
theorem seed_is_leading_words {σ : Type} (h : Host) (core : Core σ) (s₁ s₂ : List Byte)
    (hquot : s₁.length / 4 = s₂.length / 4)
    (hlead : s₁.take (4 * (s₁.length / 4)) = s₂.take (4 * (s₂.length / 4))) :
    (∀ (info₁ info₂ : List JSValue) (n k : Nat),
      (arg info₁ 1).IsFunction = true → arg info₂ 1 = arg info₁ 1 →
      ToUint32 h ((arg info₁ 0).Get "n") = some n →
      ToUint32 h ((arg info₂ 0).Get "n") = some n →
      ToUint32 h ((arg info₁ 0).Get "k") = some k →
      ToUint32 h ((arg info₂ 0).Get "k") = some k →
      (arg info₁ 0).Get "seed" = .buffer s₁ → (arg info₂ 0).Get "seed" = .buffer s₂ →
        ∃ sw : EquihashSolveWorker σ,
          Solve h core info₁ = .queued sw ∧ Solve h core info₂ = .queued sw ∧
          sw.callback = arg info₁ 1 ∧ sw.n = n ∧ sw.k = k ∧
          sw.seed = core.mkSeed
            (readWords h.order (s₁.take (4 * (s₁.length / 4))) (s₁.length / 4)) ∧
          (readWords h.order (s₁.take (4 * (s₁.length / 4))) (s₁.length / 4)).length =
            s₁.length / 4 ∧
          (s₁.length < 4 → sw.seed = core.mkSeed []) ∧
          solveDelivery h core info₁ = solveDelivery h core info₂) ∧
    (∀ (info₁ info₂ : List JSValue) (n k nonce : Nat) (inputBuffer : List Byte),
      arg info₂ 1 = arg info₁ 1 →
      ToUint32 h ((arg info₁ 0).Get "n") = some n →
      ToUint32 h ((arg info₂ 0).Get "n") = some n →
      ToUint32 h ((arg info₁ 0).Get "k") = some k →
      ToUint32 h ((arg info₂ 0).Get "k") = some k →
      ToUint32 h ((arg info₁ 0).Get "nonce") = some nonce →
      ToUint32 h ((arg info₂ 0).Get "nonce") = some nonce →
      (arg info₁ 0).Get "value" = .buffer inputBuffer →
      (arg info₂ 0).Get "value" = .buffer inputBuffer →
      (arg info₁ 0).Get "seed" = .buffer s₁ → (arg info₂ 0).Get "seed" = .buffer s₂ →
        ∃ vw : EquihashVerifyWorker σ,
          Verify h core info₁ = .queued vw ∧ Verify h core info₂ = .queued vw ∧
          vw.callback = arg info₁ 1 ∧
          vw.proof =
            ⟨n, k,
              core.mkSeed (readWords h.order (s₁.take (4 * (s₁.length / 4))) (s₁.length / 4)),
              nonce,
              (readWords h.order inputBuffer (inputBuffer.length / 4)).map (ntohl h.order)⟩ ∧
          (s₁.length < 4 → vw.proof.seed = core.mkSeed []) ∧
          verifyDelivery h core info₁ = verifyDelivery h core info₂) := by
  have hread : readWords h.order s₂ (s₂.length / 4) = readWords h.order s₁ (s₁.length / 4) := by
    rw [← hquot]
    exact (readWords_of_take_eq h.order s₁ s₂ _ (by rw [hlead, hquot])).symm
  have hshort : s₁.length < 4 →
      readWords h.order (s₁.take (4 * (s₁.length / 4))) (s₁.length / 4) = [] := by
    intro hlt
    have hz : s₁.length / 4 = 0 := by omega
    rw [hz]
    rfl
  refine ⟨?_, ?_⟩
  · intro info₁ info₂ n k hfn hcb hn₁ hn₂ hk₁ hk₂ hs₁ hs₂
    have a1 := Solve_queued h core info₁ n k s₁ hfn hn₁ hk₁ hs₁
    have a2 := Solve_queued h core info₂ n k s₂ (by rw [hcb]; exact hfn) hn₂ hk₂ hs₂
    rw [hread, hcb] at a2
    rw [← readWords_take h.order s₁ (s₁.length / 4)] at a1 a2
    refine ⟨_, a1, a2, rfl, rfl, rfl, rfl, readWords_length _ _ _, ?_, ?_⟩
    · intro hlt
      show core.mkSeed _ = core.mkSeed []
      rw [hshort hlt]
    · simp only [solveDelivery, a1, a2]
  · intro info₁ info₂ n k nonce inputBuffer hcb hn₁ hn₂ hk₁ hk₂ hnonce₁ hnonce₂ hv₁ hv₂ hs₁ hs₂
    have v1 := Verify_queued h core info₁ n k nonce s₁ inputBuffer hn₁ hk₁ hnonce₁ hs₁ hv₁
    have v2 := Verify_queued h core info₂ n k nonce s₂ inputBuffer hn₂ hk₂ hnonce₂ hs₂ hv₂
    rw [hread, hcb] at v2
    rw [← readWords_take h.order s₁ (s₁.length / 4)] at v1 v2
    refine ⟨_, v1, v2, rfl, rfl, ?_, ?_⟩
    · intro hlt
      show core.mkSeed _ = core.mkSeed []
      rw [hshort hlt]
    · simp only [verifyDelivery, v1, v2]

theorem decode_bigEndian (e : ByteOrder) (s : List Nat) (hword : ∀ x ∈ s, x < 2 ^ 32) :
    (readWords e ((s.map fun w => [byteOf (w / 2 ^ 24), byteOf (w / 2 ^ 16),
        byteOf (w / 2 ^ 8), byteOf w]).flatten)
      (((s.map fun w => [byteOf (w / 2 ^ 24), byteOf (w / 2 ^ 16),
        byteOf (w / 2 ^ 8), byteOf w]).flatten).length / 4)).map (ntohl e) = s := by
  have h := decode_encode e s
  rw [encoded_eq] at h
  rw [h]
  calc s.map (fun w => w % 2 ^ 32) = s.map id :=
        List.map_congr_left (fun x hx => Nat.mod_eq_of_lt (hword x hx))
    _ = s := List.map_id s

theorem Verify_inv {σ : Type} (h : Host) (core : Core σ) (info : List JSValue)
    (vw : EquihashVerifyWorker σ) (hq : Verify h core info = .queued vw) :
    ∃ (n k nonce : Nat) (seedBuffer inputBuffer : List Byte),
      ToUint32 h ((arg info 0).Get "n") = some n ∧
      ToUint32 h ((arg info 0).Get "k") = some k ∧
      ToUint32 h ((arg info 0).Get "nonce") = some nonce ∧
      (arg info 0).Get "seed" = .buffer seedBuffer ∧
      (arg info 0).Get "value" = .buffer inputBuffer := by
  unfold Verify at hq
  split at hq
  · cases hq
  · dsimp only at hq
    split at hq
    · rename_i n k nonce sb ib hn hk hnonce hsb hib
      refine ⟨n, k, nonce, sb, ib, hn, hk, hnonce, ?_, ?_⟩
      · revert hsb
        cases (arg info 0).Get "seed" <;> simp [BufferData]
      · revert hib
        cases (arg info 0).Get "value" <;> simp [BufferData]
    · cases hq

/-- C7. Whenever `Verify` queues a worker, the proof it carries is
`(n, k, seed, nonce, decoded indices)` read from the options, and the callback is
invoked with a null error and the boolean `Test()` of that proof; a proof that
`Test()` rejects is delivered as `false` with a null error. -/
theorem Verify_callback_reports_Test {σ : Type} (h : Host) (core : Core σ)
    (info : List JSValue) (vw : EquihashVerifyWorker σ)
    (hq : Verify h core info = .queued vw) :
    (∃ (n k nonce : Nat) (seedBuffer inputBuffer : List Byte),
      ToUint32 h ((arg info 0).Get "n") = some n ∧
      ToUint32 h ((arg info 0).Get "k") = some k ∧
      ToUint32 h ((arg info 0).Get "nonce") = some nonce ∧
      (arg info 0).Get "seed" = .buffer seedBuffer ∧
      (arg info 0).Get "value" = .buffer inputBuffer ∧
      vw.proof = ⟨n, k, core.mkSeed (readWords h.order seedBuffer (seedBuffer.length / 4)),
        nonce, (readWords h.order inputBuffer (inputBuffer.length / 4)).map (ntohl h.order)⟩) ∧
    verifyDelivery h core info =
      some ⟨arg info 1, [.null, .boolean (core.Test vw.proof)]⟩ ∧
    (core.Test vw.proof = false →
      verifyDelivery h core info = some ⟨arg info 1, [.null, .boolean false]⟩) := by
  obtain ⟨n, k, nonce, sb, ib, hn, hk, hnonce, hsb, hib⟩ := Verify_inv h core info vw hq
  have hq2 := Verify_queued h core info n k nonce sb ib hn hk hnonce hsb hib
  rw [hq] at hq2
  have hvw := Outcome.queued.inj hq2
  have hdel : verifyDelivery h core info =
      some ⟨arg info 1, [.null, .boolean (core.Test vw.proof)]⟩ := by
    simp only [verifyDelivery, hq]
    rw [hvw]
    rfl
  refine ⟨⟨n, k, nonce, sb, ib, hn, hk, hnonce, hsb, hib, ?_⟩, hdel, ?_⟩
  · rw [hvw]
    rfl
  · intro hfalse
    rw [hdel, hfalse]

/-- C1. If `Solve` delivers the object `(n, k, nonce, value)`, then `Verify`
called with the same `n`, `k`, `nonce`, `value` and the same seed buffer queues
the core's `Test` on the proof `(n, k, seed words, nonce, indices)` with the nonce
and indices that `FindProof` returned, delivers the verdict of `Test` on it, and
hence delivers `true` when `FindProof` returns its own parameters in the proof
and `Test` accepts that proof.  Divisibility of `n` by `k + 1` is not needed. -/
theorem Solve_Verify_roundtrip {σ : Type} (h : Host) (core : Core σ) (info : List JSValue)
    (n k : Nat) (seedBuffer : List Byte) (seed : σ) (p : Proof σ)
    (hfn : (arg info 1).IsFunction = true)
    (hn : ToUint32 h ((arg info 0).Get "n") = some n)
    (hk : ToUint32 h ((arg info 0).Get "k") = some k)
    (hseed : (arg info 0).Get "seed" = .buffer seedBuffer)
    (hs : seed = core.mkSeed (readWords h.order seedBuffer (seedBuffer.length / 4)))
    (hp : p = core.FindProof n k seed)
    (hnonce32 : p.nonce < 2 ^ 32)
    (hinputs32 : ∀ x ∈ p.inputs, x < 2 ^ 32) :
    ∃ obj : JSValue,
      solveDelivery h core info = some ⟨arg info 1, [.null, obj]⟩ ∧
      ∀ vopts vcb : JSValue,
        vopts.Get "n" = obj.Get "n" → vopts.Get "k" = obj.Get "k" →
        vopts.Get "nonce" = obj.Get "nonce" → vopts.Get "value" = obj.Get "value" →
        vopts.Get "seed" = .buffer seedBuffer →
          Verify h core [vopts, vcb] =
            .queued (EquihashVerifyWorker.new ⟨n, k, seed, p.nonce, p.inputs⟩ vcb) ∧
          verifyDelivery h core [vopts, vcb] =
            some ⟨vcb, [.null, .boolean (core.Test ⟨n, k, seed, p.nonce, p.inputs⟩)]⟩ ∧
          (p.n = n → p.k = k → p.seed = seed → core.Test p = true →
            verifyDelivery h core [vopts, vcb] = some ⟨vcb, [.null, .boolean true]⟩) := by
  have hsq := Solve_queued h core info n k seedBuffer hfn hn hk hseed
  rw [← hs] at hsq
  refine ⟨.object [("n", NewUnsigned n), ("k", NewUnsigned k), ("nonce", NewUnsigned p.nonce),
    ("value", .buffer ((p.inputs.map fun x => [byteOf (x / 2 ^ 24), byteOf (x / 2 ^ 16),
      byteOf (x / 2 ^ 8), byteOf x]).flatten))], ?_, ?_⟩
  · simp only [solveDelivery, hsq, EquihashSolveWorker.complete, HandleOKCallback_eq]
    simp only [EquihashSolveWorker.Execute, EquihashSolveWorker.new, ← hp]
  · intro vopts vcb gn gk gnonce gvalue gseed
    have en : (JSValue.object [("n", NewUnsigned n), ("k", NewUnsigned k),
        ("nonce", NewUnsigned p.nonce),
        ("value", .buffer ((p.inputs.map fun x => [byteOf (x / 2 ^ 24), byteOf (x / 2 ^ 16),
          byteOf (x / 2 ^ 8), byteOf x]).flatten))]).Get "n" = NewUnsigned n := rfl
    have ek : (JSValue.object [("n", NewUnsigned n), ("k", NewUnsigned k),
        ("nonce", NewUnsigned p.nonce),
        ("value", .buffer ((p.inputs.map fun x => [byteOf (x / 2 ^ 24), byteOf (x / 2 ^ 16),
          byteOf (x / 2 ^ 8), byteOf x]).flatten))]).Get "k" = NewUnsigned k := rfl
    have enonce : (JSValue.object [("n", NewUnsigned n), ("k", NewUnsigned k),
        ("nonce", NewUnsigned p.nonce),
        ("value", .buffer ((p.inputs.map fun x => [byteOf (x / 2 ^ 24), byteOf (x / 2 ^ 16),
          byteOf (x / 2 ^ 8), byteOf x]).flatten))]).Get "nonce" = NewUnsigned p.nonce := rfl
    have evalue : (JSValue.object [("n", NewUnsigned n), ("k", NewUnsigned k),
        ("nonce", NewUnsigned p.nonce),
        ("value", .buffer ((p.inputs.map fun x => [byteOf (x / 2 ^ 24), byteOf (x / 2 ^ 16),
          byteOf (x / 2 ^ 8), byteOf x]).flatten))]).Get "value" =
        .buffer ((p.inputs.map fun x => [byteOf (x / 2 ^ 24), byteOf (x / 2 ^ 16),
          byteOf (x / 2 ^ 8), byteOf x]).flatten) := rfl
    rw [en] at gn
    rw [ek] at gk
    rw [enonce] at gnonce
    rw [evalue] at gvalue
    have hn32 := ToUint32_lt h _ n hn
    have hk32 := ToUint32_lt h _ k hk
    have vq := Verify_queued h core [vopts, vcb] n k p.nonce seedBuffer _
      (by show ToUint32 h (vopts.Get "n") = some n
          rw [gn, ToUint32_NewUnsigned, Nat.mod_eq_of_lt hn32])
      (by show ToUint32 h (vopts.Get "k") = some k
          rw [gk, ToUint32_NewUnsigned, Nat.mod_eq_of_lt hk32])
      (by show ToUint32 h (vopts.Get "nonce") = some p.nonce
          rw [gnonce, ToUint32_NewUnsigned, Nat.mod_eq_of_lt hnonce32])
      gseed gvalue
    rw [decode_bigEndian h.order p.inputs hinputs32, ← hs] at vq
    have hdel : verifyDelivery h core [vopts, vcb] =
        some ⟨vcb, [.null, .boolean (core.Test ⟨n, k, seed, p.nonce, p.inputs⟩)]⟩ := by
      simp only [verifyDelivery, vq]
      rfl
    refine ⟨vq, hdel, ?_⟩
    intro e1 e2 e3 htest
    have hpe : (⟨n, k, seed, p.nonce, p.inputs⟩ : Proof σ) = p := by
      cases p
      simp only at e1 e2 e3
      subst e1 e2 e3
      rfl
    rw [hdel, hpe, htest]

/-- C4, as amended. `Verify` has no check of the index count: for a call whose
`value` buffer decodes to a number of indices different from `2 ^ k`, no error is
raised, the worker is queued on the decoded indices, and the callback receives a
null error and the verdict of the core's `Test` on that proof. -/
theorem Verify_wrong_index_count_is_dispatched {σ : Type} (h : Host) (core : Core σ)
    (info : List JSValue) (n k nonce : Nat) (seedBuffer b : List Byte)
    (hn : ToUint32 h ((arg info 0).Get "n") = some n)
    (hk : ToUint32 h ((arg info 0).Get "k") = some k)
    (hnonce : ToUint32 h ((arg info 0).Get "nonce") = some nonce)
    (hseed : (arg info 0).Get "seed" = .buffer seedBuffer)
    (hvalue : (arg info 0).Get "value" = .buffer b)
    (_hcount : b.length / 4 ≠ 2 ^ k) :
    Verify h core info =
      .queued (EquihashVerifyWorker.new
        ⟨n, k, core.mkSeed (readWords h.order seedBuffer (seedBuffer.length / 4)), nonce,
          (readWords h.order b (b.length / 4)).map (ntohl h.order)⟩ (arg info 1)) ∧
    ((readWords h.order b (b.length / 4)).map (ntohl h.order)).length = b.length / 4 ∧
    verifyDelivery h core info =
      some ⟨arg info 1, [.null, .boolean (core.Test
        ⟨n, k, core.mkSeed (readWords h.order seedBuffer (seedBuffer.length / 4)), nonce,
          (readWords h.order b (b.length / 4)).map (ntohl h.order)⟩)]⟩ := by
  have vq := Verify_queued h core info n k nonce seedBuffer b hn hk hnonce hseed hvalue
  refine ⟨vq, ?_, ?_⟩
  · rw [List.length_map, readWords_length]
  · simp only [verifyDelivery, vq]
    rfl

/-- C5, as amended. Neither method validates `n`, `k`: a `Solve` call (object
options, function callback, buffer seed) and a `Verify` call (object options,
buffer seed and value) in which `n` is 0 or `k` is 0 raise no error; each queues
its worker with that `n` and `k`, and the core's `FindProof`, respectively `Test`,
is run on them. -/
theorem zero_parameters_are_dispatched {σ : Type} (h : Host) (core : Core σ)
    (sinfo vinfo : List JSValue) (n k nonce : Nat) (seedBuffer vseedBuffer b : List Byte)
    (hfn : (arg sinfo 1).IsFunction = true)
    (hn : ToUint32 h ((arg sinfo 0).Get "n") = some n)
    (hk : ToUint32 h ((arg sinfo 0).Get "k") = some k)
    (hseed : (arg sinfo 0).Get "seed" = .buffer seedBuffer)
    (hvn : ToUint32 h ((arg vinfo 0).Get "n") = some n)
    (hvk : ToUint32 h ((arg vinfo 0).Get "k") = some k)
    (hvnonce : ToUint32 h ((arg vinfo 0).Get "nonce") = some nonce)
    (hvseed : (arg vinfo 0).Get "seed" = .buffer vseedBuffer)
    (hvvalue : (arg vinfo 0).Get "value" = .buffer b)
    (_hzero : n = 0 ∨ k = 0) :
    Solve h core sinfo =
      .queued (EquihashSolveWorker.new n k
        (core.mkSeed (readWords h.order seedBuffer (seedBuffer.length / 4))) (arg sinfo 1)) ∧
    solveDelivery h core sinfo =
      some (EquihashSolveWorker.HandleOKCallback h
        ⟨arg sinfo 1, n, k,
          (core.FindProof n k
            (core.mkSeed (readWords h.order seedBuffer (seedBuffer.length / 4)))).nonce,
          core.mkSeed (readWords h.order seedBuffer (seedBuffer.length / 4)),
          (core.FindProof n k
            (core.mkSeed (readWords h.order seedBuffer (seedBuffer.length / 4)))).inputs⟩) ∧
    Verify h core vinfo =
      .queued (EquihashVerifyWorker.new
        ⟨n, k, core.mkSeed (readWords h.order vseedBuffer (vseedBuffer.length / 4)), nonce,
          (readWords h.order b (b.length / 4)).map (ntohl h.order)⟩ (arg vinfo 1)) ∧
    verifyDelivery h core vinfo =
      some ⟨arg vinfo 1, [.null, .boolean (core.Test
        ⟨n, k, core.mkSeed (readWords h.order vseedBuffer (vseedBuffer.length / 4)), nonce,
          (readWords h.order b (b.length / 4)).map (ntohl h.order)⟩)]⟩ := by
  have sq := Solve_queued h core sinfo n k seedBuffer hfn hn hk hseed
  have vq := Verify_queued h core vinfo n k nonce vseedBuffer b hvn hvk hvnonce hvseed hvvalue
  refine ⟨sq, ?_, vq, ?_⟩
  · simp only [solveDelivery, sq]
    rfl
  · simp only [verifyDelivery, vq]
    rfl

/-- C6, as amended. When `FindProof` returns a proof with no indices, the solve
worker invokes the callback with a null error and a result object carrying `n`,
`k`, the returned nonce and an empty `value` buffer; every `Solve` call that
queued the worker delivers exactly that. -/
theorem empty_solution_is_delivered_as_success {σ : Type} (h : Host) (core : Core σ)
    (w : EquihashSolveWorker σ)
    (hempty : (core.FindProof w.n w.k w.seed).inputs = []) :
    w.complete h core =
      ⟨w.callback, [.null, .object [("n", NewUnsigned w.n), ("k", NewUnsigned w.k),
        ("nonce", NewUnsigned (core.FindProof w.n w.k w.seed).nonce),
        ("value", .buffer [])]]⟩ ∧
    ∀ info : List JSValue, Solve h core info = .queued w →
      solveDelivery h core info =
        some ⟨w.callback, [.null, .object [("n", NewUnsigned w.n), ("k", NewUnsigned w.k),
          ("nonce", NewUnsigned (core.FindProof w.n w.k w.seed).nonce),
          ("value", .buffer [])]]⟩ := by
  have hc : w.complete h core =
      ⟨w.callback, [.null, .object [("n", NewUnsigned w.n), ("k", NewUnsigned w.k),
        ("nonce", NewUnsigned (core.FindProof w.n w.k w.seed).nonce),
        ("value", .buffer [])]]⟩ := by
    rw [EquihashSolveWorker.complete, HandleOKCallback_eq]
    simp only [EquihashSolveWorker.Execute, hempty]
    rfl
  refine ⟨hc, ?_⟩
  intro info hq
  simp only [solveDelivery, hq, hc]

/-- C8, as amended. `Solve` throws a type error exactly when its first argument
is not an object or its second argument is not a function, and then queues no
worker; in every other case it throws nothing, and when the options give `n`,
`k` and a buffer seed it queues one solve worker, whose callback, `n`, `k` and
seed are the second argument, that `n`, that `k` and the seed built from the
words of that buffer. -/
theorem Solve_typeError_iff {σ : Type} (h : Host) (core : Core σ) (info : List JSValue) :
    ((∃ msg, Solve h core info = .threw msg) ↔
      ((arg info 0).IsObject = false ∨ (arg info 1).IsFunction = false)) ∧
    (((arg info 0).IsObject = false ∨ (arg info 1).IsFunction = false) →
      ∀ w, Solve h core info ≠ .queued w) ∧
    (∀ (n k : Nat) (seedBuffer : List Byte),
      (arg info 0).IsObject = true → (arg info 1).IsFunction = true →
      ToUint32 h ((arg info 0).Get "n") = some n →
      ToUint32 h ((arg info 0).Get "k") = some k →
      (arg info 0).Get "seed" = .buffer seedBuffer →
        ∃ w : EquihashSolveWorker σ,
          Solve h core info = .queued w ∧
          w.callback = arg info 1 ∧ w.n = n ∧ w.k = k ∧
          w.seed = core.mkSeed (readWords h.order seedBuffer (seedBuffer.length / 4)) ∧
          w.solution = []) := by
  refine ⟨Solve_threw_iff h core info, ?_, ?_⟩
  · intro hbad w hq
    obtain ⟨msg, hmsg⟩ := (Solve_threw_iff h core info).mpr hbad
    rw [hmsg] at hq
    cases hq
  · intro n k seedBuffer _ hfn hn hk hseed
    exact ⟨_, Solve_queued h core info n k seedBuffer hfn hn hk hseed, rfl, rfl, rfl, rfl, rfl⟩

/-! ## The claims evaluated on concrete calls -/

set_option maxRecDepth 100000

/-- C2 on the worker of `demoSolveInfo`, whose core returns the indices `1` and
`16909060`. -/
theorem Solve_value_bigEndian_witness :
    (∀ x ∈ (demoCore.FindProof demoSolveWorker.n demoSolveWorker.k
        demoSolveWorker.seed).inputs, x < 2 ^ 32) ∧
    ∃ bytes : List Byte,
      (((demoSolveWorker.complete demoHost demoCore).argv.getD 1 .undefined).Get "value" =
        .buffer bytes) ∧
      bytes.length = 4 * (demoCore.FindProof demoSolveWorker.n demoSolveWorker.k
        demoSolveWorker.seed).inputs.length ∧
      ∀ i, i < (demoCore.FindProof demoSolveWorker.n demoSolveWorker.k
          demoSolveWorker.seed).inputs.length →
        (bytes.getD (4 * i) 0).val =
          (demoCore.FindProof demoSolveWorker.n demoSolveWorker.k
            demoSolveWorker.seed).inputs.getD i 0 / 2 ^ 24 ∧
        (bytes.getD (4 * i + 1) 0).val =
          (demoCore.FindProof demoSolveWorker.n demoSolveWorker.k
            demoSolveWorker.seed).inputs.getD i 0 / 2 ^ 16 % 256 ∧
        (bytes.getD (4 * i + 2) 0).val =
          (demoCore.FindProof demoSolveWorker.n demoSolveWorker.k
            demoSolveWorker.seed).inputs.getD i 0 / 2 ^ 8 % 256 ∧
        (bytes.getD (4 * i + 3) 0).val =
          (demoCore.FindProof demoSolveWorker.n demoSolveWorker.k
            demoSolveWorker.seed).inputs.getD i 0 % 256 :=
  ⟨by decide, Solve_value_bigEndian demoHost demoCore demoSolveWorker (by decide)⟩

/-- C3 on the call `demoVerifyInfo`, on a big-endian host. -/
theorem Verify_indices_bigEndian_witness :
    ToUint32 demoHostBE ((arg demoVerifyInfo 0).Get "n") = some 96 ∧
    ToUint32 demoHostBE ((arg demoVerifyInfo 0).Get "k") = some 5 ∧
    ToUint32 demoHostBE ((arg demoVerifyInfo 0).Get "nonce") = some 7 ∧
    (arg demoVerifyInfo 0).Get "seed" = .buffer demoSeed ∧
    (arg demoVerifyInfo 0).Get "value" = .buffer demoValue ∧
    ∃ vw : EquihashVerifyWorker (List Nat),
      Verify demoHostBE demoCore demoVerifyInfo = .queued vw ∧
      vw.proof.inputs.length = demoValue.length / 4 ∧
      ∀ i, i < demoValue.length / 4 →
        vw.proof.inputs.getD i 0 =
          (demoValue.getD (4 * i) 0).val * 2 ^ 24 + (demoValue.getD (4 * i + 1) 0).val * 2 ^ 16 +
            (demoValue.getD (4 * i + 2) 0).val * 2 ^ 8 + (demoValue.getD (4 * i + 3) 0).val :=
  ⟨rfl, rfl, rfl, rfl, rfl,
    Verify_indices_bigEndian demoHostBE demoCore demoVerifyInfo 96 5 7 demoSeed demoValue
      rfl rfl rfl rfl rfl⟩

/-- C10 on the options `demoVerifyProps`, with two bytes appended to `demoValue`. -/
theorem Verify_ignores_trailing_bytes_witness :
    ToUint32 demoHost ((JSValue.object demoVerifyProps).Get "n") = some 96 ∧
    ToUint32 demoHost ((JSValue.object demoVerifyProps).Get "k") = some 5 ∧
    ToUint32 demoHost ((JSValue.object demoVerifyProps).Get "nonce") = some 7 ∧
    (JSValue.object demoVerifyProps).Get "seed" = .buffer demoSeed ∧
    demoValue.length % 4 = 0 ∧ 1 ≤ ([255, 255] : List Byte).length ∧
    ([255, 255] : List Byte).length ≤ 3 ∧
    ∃ vw : EquihashVerifyWorker (List Nat),
      Verify demoHost demoCore
        [(JSValue.object demoVerifyProps).Set "value" (.buffer (demoValue ++ [255, 255])),
          .function 1] = .queued vw ∧
      Verify demoHost demoCore
        [(JSValue.object demoVerifyProps).Set "value" (.buffer demoValue), .function 1] =
          .queued vw ∧
      vw.proof.inputs.length = (demoValue ++ [255, 255]).length / 4 ∧
      vw.proof.inputs =
        (readWords demoHost.order demoValue (demoValue.length / 4)).map (ntohl demoHost.order) ∧
      verifyDelivery demoHost demoCore
        [(JSValue.object demoVerifyProps).Set "value" (.buffer (demoValue ++ [255, 255])),
          .function 1] =
        verifyDelivery demoHost demoCore
          [(JSValue.object demoVerifyProps).Set "value" (.buffer demoValue), .function 1] ∧
      demoValue ++ [255, 255] ≠ demoValue :=
  ⟨rfl, rfl, rfl, rfl, by decide, by decide, by decide,
    Verify_ignores_trailing_bytes demoHost demoCore demoVerifyProps (.function 1) 96 5 7
      demoSeed demoValue [255, 255] rfl rfl rfl rfl (by decide) (by decide) (by decide)⟩

/-- C9 on the calls `demoSolveInfo` and `demoSolveInfoLonger`, on the calls
`demoVerifyInfo` and `demoVerifyInfoLonger`, whose seed buffers of nine and ten
bytes share their eight leading bytes, and on the calls `shortSeedSolveInfo` and
`shortSeedVerifyInfo`, whose seed buffer has three bytes. -/
theorem seed_is_leading_words_witness :
    demoSeed.length / 4 = demoSeedLonger.length / 4 ∧
    demoSeed.take (4 * (demoSeed.length / 4)) =
      demoSeedLonger.take (4 * (demoSeedLonger.length / 4)) ∧
    Solve demoHost demoCore demoSolveInfo = .queued ⟨.function 0, 96, 5, 0, [1, 2], []⟩ ∧
    Solve demoHost demoCore demoSolveInfoLonger =
      .queued ⟨.function 0, 96, 5, 0, [1, 2], []⟩ ∧
    (∃ sw : EquihashSolveWorker (List Nat),
      Solve demoHost demoCore demoSolveInfo = .queued sw ∧
      Solve demoHost demoCore demoSolveInfoLonger = .queued sw ∧
      sw.callback = arg demoSolveInfo 1 ∧ sw.n = 96 ∧ sw.k = 5 ∧
      sw.seed = demoCore.mkSeed
        (readWords demoHost.order (demoSeed.take (4 * (demoSeed.length / 4)))
          (demoSeed.length / 4)) ∧
      (readWords demoHost.order (demoSeed.take (4 * (demoSeed.length / 4)))
        (demoSeed.length / 4)).length = demoSeed.length / 4 ∧
      (demoSeed.length < 4 → sw.seed = demoCore.mkSeed []) ∧
      solveDelivery demoHost demoCore demoSolveInfo =
        solveDelivery demoHost demoCore demoSolveInfoLonger) ∧
    (∃ vw : EquihashVerifyWorker (List Nat),
      Verify demoHost demoCore demoVerifyInfo = .queued vw ∧
      Verify demoHost demoCore demoVerifyInfoLonger = .queued vw ∧
      vw.callback = arg demoVerifyInfo 1 ∧
      vw.proof =
        ⟨96, 5,
          demoCore.mkSeed
            (readWords demoHost.order (demoSeed.take (4 * (demoSeed.length / 4)))
              (demoSeed.length / 4)),
          7,
          (readWords demoHost.order demoValue (demoValue.length / 4)).map
            (ntohl demoHost.order)⟩ ∧
      (demoSeed.length < 4 → vw.proof.seed = demoCore.mkSeed []) ∧
      verifyDelivery demoHost demoCore demoVerifyInfo =
        verifyDelivery demoHost demoCore demoVerifyInfoLonger) ∧
    ([9, 9, 9] : List Byte).length < 4 ∧
    (∃ sw : EquihashSolveWorker (List Nat),
      Solve demoHost demoCore shortSeedSolveInfo = .queued sw ∧
      sw.seed = demoCore.mkSeed []) ∧
    (∃ vw : EquihashVerifyWorker (List Nat),
      Verify demoHost demoCore shortSeedVerifyInfo = .queued vw ∧
      vw.proof.seed = demoCore.mkSeed []) := by
  have hlong := seed_is_leading_words demoHost demoCore demoSeed demoSeedLonger
    (by decide) (by decide)
  have hshort := seed_is_leading_words demoHost demoCore [9, 9, 9] [9, 9, 9] rfl rfl
  obtain ⟨sw, s1, _, _, _, _, _, _, sshort, _⟩ :=
    hshort.1 shortSeedSolveInfo shortSeedSolveInfo 96 5 rfl rfl rfl rfl rfl rfl rfl rfl
  obtain ⟨vw, v1, _, _, _, vshort, _⟩ :=
    hshort.2 shortSeedVerifyInfo shortSeedVerifyInfo 96 5 7 demoValue
      rfl rfl rfl rfl rfl rfl rfl rfl rfl rfl rfl
  exact ⟨by decide, by decide, rfl, rfl,
    hlong.1 demoSolveInfo demoSolveInfoLonger 96 5 rfl rfl rfl rfl rfl rfl rfl rfl,
    hlong.2 demoVerifyInfo demoVerifyInfoLonger 96 5 7 demoValue
      rfl rfl rfl rfl rfl rfl rfl rfl rfl rfl rfl,
    by decide, ⟨sw, s1, sshort (by decide)⟩, ⟨vw, v1, vshort (by decide)⟩⟩

/-- C7 on the call `demoVerifyInfo`, which queues `demoVerifyWorker`: the core
rejects its two-index proof for `k = 5`, and the callback receives a null error
and `false`. -/
theorem Verify_callback_reports_Test_witness :
    Verify demoHost demoCore demoVerifyInfo = .queued demoVerifyWorker ∧
    demoCore.Test demoVerifyWorker.proof = false ∧
    verifyDelivery demoHost demoCore demoVerifyInfo =
      some ⟨arg demoVerifyInfo 1, [.null, .boolean (demoCore.Test demoVerifyWorker.proof)]⟩ ∧
    verifyDelivery demoHost demoCore demoVerifyInfo =
      some ⟨arg demoVerifyInfo 1, [.null, .boolean false]⟩ :=
  ⟨rfl, rfl,
    (Verify_callback_reports_Test demoHost demoCore demoVerifyInfo demoVerifyWorker rfl).2.1,
    (Verify_callback_reports_Test demoHost demoCore demoVerifyInfo demoVerifyWorker rfl).2.2
      rfl⟩

/-- C1 on the call `roundtripSolveInfo`: the seed words are `[1, 2]`, the core
returns the nonce `7` and the indices `1` and `16909060` with the parameters
`96` and `1` it was given, and accepts that proof; `Verify` on what `Solve`
delivered, with the same seed buffer, delivers `true`. -/
theorem Solve_Verify_roundtrip_witness :
    (arg roundtripSolveInfo 1).IsFunction = true ∧
    ToUint32 demoHost ((arg roundtripSolveInfo 0).Get "n") = some 96 ∧
    ToUint32 demoHost ((arg roundtripSolveInfo 0).Get "k") = some 1 ∧
    (arg roundtripSolveInfo 0).Get "seed" = .buffer demoSeed ∧
    ([1, 2] : List Nat) =
      demoCore.mkSeed (readWords demoHost.order demoSeed (demoSeed.length / 4)) ∧
    (⟨96, 1, [1, 2], 7, [1, 16909060]⟩ : Proof (List Nat)) = demoCore.FindProof 96 1 [1, 2] ∧
    (⟨96, 1, [1, 2], 7, [1, 16909060]⟩ : Proof (List Nat)).nonce < 2 ^ 32 ∧
    (∀ x ∈ (⟨96, 1, [1, 2], 7, [1, 16909060]⟩ : Proof (List Nat)).inputs, x < 2 ^ 32) ∧
    solveDelivery demoHost demoCore roundtripSolveInfo =
      some ⟨.function 0, [.null, .object [("n", .number 96), ("k", .number 1),
        ("nonce", .number 7), ("value", .buffer demoValue)]]⟩ ∧
    demoCore.Test ⟨96, 1, [1, 2], 7, [1, 16909060]⟩ = true ∧
    Verify demoHost demoCore [roundtripVerifyOptions, .function 1] =
      .queued (EquihashVerifyWorker.new ⟨96, 1, [1, 2], 7, [1, 16909060]⟩ (.function 1)) ∧
    verifyDelivery demoHost demoCore [roundtripVerifyOptions, .function 1] =
      some ⟨.function 1, [.null, .boolean true]⟩ := by
  have hsolve : solveDelivery demoHost demoCore roundtripSolveInfo =
      some ⟨.function 0, [.null, .object [("n", .number 96), ("k", .number 1),
        ("nonce", .number 7), ("value", .buffer demoValue)]]⟩ := rfl
  obtain ⟨obj, hdel, hall⟩ :=
    Solve_Verify_roundtrip demoHost demoCore roundtripSolveInfo 96 1 demoSeed [1, 2]
      ⟨96, 1, [1, 2], 7, [1, 16909060]⟩ rfl rfl rfl rfl rfl rfl (by decide) (by decide)
  rw [hsolve] at hdel
  have hobj : obj = .object [("n", .number 96), ("k", .number 1), ("nonce", .number 7),
      ("value", .buffer demoValue)] := by
    injection hdel with hdel
    injection hdel with _ hargv
    injection hargv with _ htail
    injection htail with hhead _
    exact hhead.symm
  subst hobj
  have hv := hall roundtripVerifyOptions (.function 1) rfl rfl rfl rfl rfl
  exact ⟨rfl, rfl, rfl, rfl, rfl, rfl, by decide, by decide, hsolve, rfl, hv.1,
    hv.2.2 rfl rfl rfl rfl⟩

/-- C4: the 31-index buffer of `truncatedVerifyInfo` for `k = 5` is not refused.
The call queues the worker on the 31 decoded indices and the callback receives a
null error and `false`. -/
theorem Verify_truncated_proof_is_dispatched :
    (List.replicate 124 (0 : Byte)).length / 4 ≠ 2 ^ 5 ∧
    Verify demoHost demoCore truncatedVerifyInfo =
      .queued ⟨.function 1, ⟨96, 5, List.replicate 8 0, 0, List.replicate 31 0⟩, false⟩ ∧
    verifyDelivery demoHost demoCore truncatedVerifyInfo =
      some ⟨.function 1, [.null, .boolean false]⟩ :=
  ⟨by decide, rfl, rfl⟩

/-- C4, as amended, on the call `truncatedVerifyInfo`. -/
theorem Verify_wrong_index_count_is_dispatched_witness :
    ToUint32 demoHost ((arg truncatedVerifyInfo 0).Get "n") = some 96 ∧
    ToUint32 demoHost ((arg truncatedVerifyInfo 0).Get "k") = some 5 ∧
    ToUint32 demoHost ((arg truncatedVerifyInfo 0).Get "nonce") = some 0 ∧
    (arg truncatedVerifyInfo 0).Get "seed" = .buffer (List.replicate 32 0) ∧
    (arg truncatedVerifyInfo 0).Get "value" = .buffer (List.replicate 124 0) ∧
    (List.replicate 124 (0 : Byte)).length / 4 ≠ 2 ^ 5 ∧
    Verify demoHost demoCore truncatedVerifyInfo =
      .queued (EquihashVerifyWorker.new
        ⟨96, 5, demoCore.mkSeed (readWords demoHost.order (List.replicate 32 0)
            ((List.replicate 32 (0 : Byte)).length / 4)), 0,
          (readWords demoHost.order (List.replicate 124 0)
            ((List.replicate 124 (0 : Byte)).length / 4)).map (ntohl demoHost.order)⟩
        (arg truncatedVerifyInfo 1)) ∧
    ((readWords demoHost.order (List.replicate 124 0)
        ((List.replicate 124 (0 : Byte)).length / 4)).map (ntohl demoHost.order)).length =
      (List.replicate 124 (0 : Byte)).length / 4 ∧
    verifyDelivery demoHost demoCore truncatedVerifyInfo =
      some ⟨arg truncatedVerifyInfo 1, [.null, .boolean (demoCore.Test
        ⟨96, 5, demoCore.mkSeed (readWords demoHost.order (List.replicate 32 0)
            ((List.replicate 32 (0 : Byte)).length / 4)), 0,
          (readWords demoHost.order (List.replicate 124 0)
            ((List.replicate 124 (0 : Byte)).length / 4)).map (ntohl demoHost.order)⟩)]⟩ :=
  ⟨rfl, rfl, rfl, rfl, rfl, by decide,
    Verify_wrong_index_count_is_dispatched demoHost demoCore truncatedVerifyInfo 96 5 0
      (List.replicate 32 0) (List.replicate 124 0) rfl rfl rfl rfl rfl (by decide)⟩

/-- C5: the calls `zeroSolveInfo` and `zeroVerifyInfo`, with `n = 0` and `k = 0`,
are not refused. Each queues its worker with `n = 0` and `k = 0`. -/
theorem zero_parameters_are_not_rejected :
    Solve demoHost demoCore zeroSolveInfo = .queued ⟨.function 0, 0, 0, 0, [1, 2], []⟩ ∧
    Verify demoHost demoCore zeroVerifyInfo =
      .queued ⟨.function 1, ⟨0, 0, [1, 2], 7, [1, 16909060]⟩, false⟩ ∧
    verifyDelivery demoHost demoCore zeroVerifyInfo =
      some ⟨.function 1, [.null, .boolean false]⟩ :=
  ⟨rfl, rfl, rfl⟩

/-- C5, as amended, on the calls `zeroSolveInfo` and `zeroVerifyInfo`. -/
theorem zero_parameters_are_dispatched_witness :
    (arg zeroSolveInfo 1).IsFunction = true ∧
    ToUint32 demoHost ((arg zeroSolveInfo 0).Get "n") = some 0 ∧
    ToUint32 demoHost ((arg zeroSolveInfo 0).Get "k") = some 0 ∧
    (arg zeroSolveInfo 0).Get "seed" = .buffer demoSeed ∧
    ToUint32 demoHost ((arg zeroVerifyInfo 0).Get "n") = some 0 ∧
    ToUint32 demoHost ((arg zeroVerifyInfo 0).Get "k") = some 0 ∧
    ToUint32 demoHost ((arg zeroVerifyInfo 0).Get "nonce") = some 7 ∧
    (arg zeroVerifyInfo 0).Get "seed" = .buffer demoSeed ∧
    (arg zeroVerifyInfo 0).Get "value" = .buffer demoValue ∧
    ((0 : Nat) = 0 ∨ (0 : Nat) = 0) ∧
    Solve demoHost demoCore zeroSolveInfo =
      .queued (EquihashSolveWorker.new 0 0
        (demoCore.mkSeed (readWords demoHost.order demoSeed (demoSeed.length / 4)))
        (arg zeroSolveInfo 1)) ∧
    solveDelivery demoHost demoCore zeroSolveInfo =
      some (EquihashSolveWorker.HandleOKCallback demoHost
        ⟨arg zeroSolveInfo 1, 0, 0,
          (demoCore.FindProof 0 0
            (demoCore.mkSeed (readWords demoHost.order demoSeed (demoSeed.length / 4)))).nonce,
          demoCore.mkSeed (readWords demoHost.order demoSeed (demoSeed.length / 4)),
          (demoCore.FindProof 0 0
            (demoCore.mkSeed
              (readWords demoHost.order demoSeed (demoSeed.length / 4)))).inputs⟩) ∧
    Verify demoHost demoCore zeroVerifyInfo =
      .queued (EquihashVerifyWorker.new
        ⟨0, 0, demoCore.mkSeed (readWords demoHost.order demoSeed (demoSeed.length / 4)), 7,
          (readWords demoHost.order demoValue (demoValue.length / 4)).map
            (ntohl demoHost.order)⟩ (arg zeroVerifyInfo 1)) ∧
    verifyDelivery demoHost demoCore zeroVerifyInfo =
      some ⟨arg zeroVerifyInfo 1, [.null, .boolean (demoCore.Test
        ⟨0, 0, demoCore.mkSeed (readWords demoHost.order demoSeed (demoSeed.length / 4)), 7,
          (readWords demoHost.order demoValue (demoValue.length / 4)).map
            (ntohl demoHost.order)⟩)]⟩ :=
  ⟨rfl, rfl, rfl, rfl, rfl, rfl, rfl, rfl, rfl, Or.inl rfl,
    zero_parameters_are_dispatched demoHost demoCore zeroSolveInfo zeroVerifyInfo 0 0 7
      demoSeed demoSeed demoValue rfl rfl rfl rfl rfl rfl rfl rfl rfl (Or.inl rfl)⟩

/-- C6: on the core `exhaustedCore`, whose search returns no indices, the call
`demoSolveInfo` leads to a callback with a null error and a result object whose
`value` is the empty buffer. -/
theorem exhausted_search_is_not_a_failure :
    (exhaustedCore.FindProof 96 5 [1, 2]).inputs = [] ∧
    solveDelivery demoHost exhaustedCore demoSolveInfo =
      some ⟨.function 0, [.null, .object [("n", .number 96), ("k", .number 5),
        ("nonce", .number 1048575), ("value", .buffer [])]]⟩ :=
  ⟨rfl, rfl⟩

/-- C6, as amended, on the call `demoSolveInfo`, its worker, and the core
`exhaustedCore`. -/
theorem empty_solution_is_delivered_as_success_witness :
    (exhaustedCore.FindProof demoSolveWorker.n demoSolveWorker.k demoSolveWorker.seed).inputs =
      [] ∧
    Solve demoHost exhaustedCore demoSolveInfo = .queued demoSolveWorker ∧
    demoSolveWorker.complete demoHost exhaustedCore =
      ⟨demoSolveWorker.callback, [.null, .object [("n", NewUnsigned demoSolveWorker.n),
        ("k", NewUnsigned demoSolveWorker.k),
        ("nonce", NewUnsigned (exhaustedCore.FindProof demoSolveWorker.n demoSolveWorker.k
          demoSolveWorker.seed).nonce),
        ("value", .buffer [])]]⟩ ∧
    solveDelivery demoHost exhaustedCore demoSolveInfo =
      some ⟨demoSolveWorker.callback, [.null, .object [("n", NewUnsigned demoSolveWorker.n),
        ("k", NewUnsigned demoSolveWorker.k),
        ("nonce", NewUnsigned (exhaustedCore.FindProof demoSolveWorker.n demoSolveWorker.k
          demoSolveWorker.seed).nonce),
        ("value", .buffer [])]]⟩ :=
  ⟨rfl, rfl,
    (empty_solution_is_delivered_as_success demoHost exhaustedCore demoSolveWorker rfl).1,
    (empty_solution_is_delivered_as_success demoHost exhaustedCore demoSolveWorker rfl).2
      demoSolveInfo rfl⟩

/-- C8: the call `noSeedSolveInfo` passes both checks, its options being an
object and its callback a function, yet no worker is queued: the options hold no
seed buffer. -/
theorem Solve_without_seed_is_not_dispatched :
    (arg noSeedSolveInfo 0).IsObject = true ∧ (arg noSeedSolveInfo 1).IsFunction = true ∧
    (arg noSeedSolveInfo 0).Get "seed" = .undefined ∧
    Solve demoHost demoCore noSeedSolveInfo = .unspecified :=
  ⟨rfl, rfl, rfl, rfl⟩

/-- C8, as amended, on the call `demoSolveInfo`, which passes both checks and is
queued, and on a call whose first argument is a number, which throws and queues
nothing. -/
theorem Solve_typeError_iff_witness :
    (arg demoSolveInfo 0).IsObject = true ∧ (arg demoSolveInfo 1).IsFunction = true ∧
    ToUint32 demoHost ((arg demoSolveInfo 0).Get "n") = some 96 ∧
    ToUint32 demoHost ((arg demoSolveInfo 0).Get "k") = some 5 ∧
    (arg demoSolveInfo 0).Get "seed" = .buffer demoSeed ∧
    Solve demoHost demoCore demoSolveInfo = .queued ⟨.function 0, 96, 5, 0, [1, 2], []⟩ ∧
    (∃ w : EquihashSolveWorker (List Nat),
      Solve demoHost demoCore demoSolveInfo = .queued w ∧
      w.callback = arg demoSolveInfo 1 ∧ w.n = 96 ∧ w.k = 5 ∧
      w.seed = demoCore.mkSeed (readWords demoHost.order demoSeed (demoSeed.length / 4)) ∧
      w.solution = []) ∧
    ((arg [JSValue.number 3, JSValue.function 0] 0).IsObject = false ∨
      (arg [JSValue.number 3, JSValue.function 0] 1).IsFunction = false) ∧
    (∃ msg, Solve demoHost demoCore [JSValue.number 3, JSValue.function 0] = .threw msg) ∧
    (∀ w, Solve demoHost demoCore [JSValue.number 3, JSValue.function 0] ≠ .queued w) :=
  ⟨rfl, rfl, rfl, rfl, rfl, rfl,
    (Solve_typeError_iff demoHost demoCore demoSolveInfo).2.2 96 5 demoSeed rfl rfl rfl rfl rfl,
    Or.inl rfl,
    (Solve_typeError_iff demoHost demoCore [JSValue.number 3, JSValue.function 0]).1.mpr
      (Or.inl rfl),
    (Solve_typeError_iff demoHost demoCore [JSValue.number 3, JSValue.function 0]).2.1
      (Or.inl rfl)⟩

end Equihash
